import Mathlib

/-!
Shallow embedding of `src/script.py` (class `MudahScraper`), a sequential
web-scraping pipeline.  Network fetches and HTML/JSON parsing outcomes are
modelled as explicit inputs (oracle-style): each definition below mirrors the
control flow of the corresponding Python method on those inputs.
-/

namespace MudahScraper

/-- Known-field schema `self.keys` (script.py lines 39-50). -/
def keys : List String :=
  ["price",
   "location", "condition", "make", "model",
   "car_type", "transmission", "engine_capacity", "mileage",
   "manufactured_date", "ads_id", "family", "variant", "series",
   "style", "seat", "country_origin", "cc", "comp_ratio", "kw",
   "torque", "engine", "fuel_type", "length", "width", "height",
   "wheelbase", "kerbwt", "fueltk", "brake_front", "brake_rear",
   "suspension_front", "suspension_rear", "steering", "tyres_front",
   "tyres_rear", "wheel_rim_front", "wheel_rim_rear"]

/-- One extracted attribute, the dict shape `{id, value, realValue, label}`
used throughout the script. -/
structure RawAttribute where
  id : String
  value : String
  realValue : String
  label : String
deriving DecidableEq, Repr

/-- Python-dict assignment `d[k] = v`: overwrite the value in place when the
key is present, append otherwise (insertion-order semantics). -/
def dictSet : List (String × String) → String → String → List (String × String)
  | [], k, v => [(k, v)]
  | (k₀, v₀) :: rest, k, v =>
    if k₀ = k then (k, v) :: rest else (k₀, v₀) :: dictSet rest k v

/-- Python-dict lookup `d.get(k)`. -/
def dictGet (d : List (String × String)) (k : String) : Option String :=
  (d.find? (fun p => p.1 == k)).map (fun p => p.2)

/-- Body of the normalization loop of `scrape_cars` (script.py lines 276-278):
`if item['id'] in self.keys: car_dict[item['id']] = item['value']`. -/
def normStep (d : List (String × String)) (item : RawAttribute) : List (String × String) :=
  if item.id ∈ keys then dictSet d item.id item.value else d

/-- Normalization loop of `scrape_cars` (script.py lines 275-278): keep only
attributes whose id is in `keys`, last write wins. -/
def normalize (attrs : List RawAttribute) : List (String × String) :=
  attrs.foldl normStep []

/-- Generate the Python `range(start, end + 1)` as a list of integers. -/
def pyRange (a b : Int) : List Int :=
  (List.range (b - a).toNat).map (fun i => a + Int.ofNat i)

/-- Boolean test that the first list is a prefix of the second
(Python `str.startswith`). -/
def leadsWith : List Char → List Char → Bool
  | [], _ => true
  | _ :: _, [] => false
  | p :: ps, c :: cs => p == c && leadsWith ps cs

/-- Python `url.startswith('http')` (script.py line 135). -/
def startsHttp (s : String) : Bool := leadsWith "http".data s.data

/-- Boolean test that `.htm` occurs somewhere as a substring. -/
def htmSub : List Char → Bool
  | [] => false
  | c :: rest => leadsWith ".htm".data (c :: rest) || htmSub rest

/-- Python `re.search(r'.+\.html?', s)` (script.py line 131): some non-newline
character immediately followed by `.htm` (the optional `l` constrains
nothing). -/
def searchAnyHtml : List Char → Bool
  | [] => false
  | c :: rest => (!(c == Char.ofNat 10) && leadsWith ".htm".data rest) || searchAnyHtml rest

/-- Matcher for the part of `r'/cars/.+\.html?'` after the literal `/cars/`:
a nonempty run of non-newline characters followed by `.htm`. -/
def afterCars : List Char → Bool
  | [] => false
  | c :: rest => !(c == Char.ofNat 10) && (leadsWith ".htm".data rest || afterCars rest)

/-- Python `re.search(r'/cars/.+\.html?', s)` (script.py line 129). -/
def searchCarsHtml : List Char → Bool
  | [] => false
  | c :: rest =>
    (leadsWith "/cars/".data (c :: rest) && afterCars (rest.drop 5)) || searchCarsHtml rest

/-- Boolean test that a string ends with `.htm` or `.html`. -/
def endsWithHtml (s : String) : Bool :=
  leadsWith ".htm".data.reverse s.data.reverse || leadsWith ".html".data.reverse s.data.reverse

/-- One selected listing container element, carrying the `href` attributes of
its descendant anchors in document order. -/
structure Element where
  anchors : List String
deriving DecidableEq

/-- The `element.find('a', href=...)` chain of script.py lines 129-133: first
anchor whose href matches `/cars/.+\.html?`, else first anchor whose href
matches `.+\.html?`. -/
def element_find_link (e : Element) : Option String :=
  (e.anchors.find? (fun s => searchCarsHtml s.data)).or
    (e.anchors.find? (fun s => searchAnyHtml s.data))

/-- Relative-to-absolute rewriting of script.py lines 134-136. -/
def absolutize (url : String) : String :=
  if startsHttp url then url else "https://www.mudah.my" ++ url

/-- One fetched-and-parsed search-result page: the URLs successfully read from
the LD+JSON block (method 1), the listing container elements chosen by the
selector chain (method 2), and the URLs read from the `__NEXT_DATA__` block
(method 3).  A strategy whose data is absent or whose parse fails contributes
the empty list. -/
structure Page where
  ldjsonUrls : List String
  elements : List Element
  nextDataUrls : List String
deriving DecidableEq

/-- Combined-strategy URL set of one attempt (script.py lines 111-151): the
set `car_urls` materialized as a duplicate-free list (`list(car_urls)`). -/
def attempt_result (p : Page) : List String :=
  (p.ldjsonUrls ++ (p.elements.filterMap element_find_link).map absolutize
    ++ p.nextDataUrls).dedup

/-- Retry loop of `get_car_urls` (script.py lines 101-172).  Each entry of the
first list is the outcome of one loop iteration's fetch+extract: `none` when
an exception was raised (caught at line 166), `some p` when page `p` was
fetched and parsed.  The final list argument is the accumulator
`best_result`. -/
def get_car_urls_go (expected_urls : Nat) : List (Option Page) → List String → List String
  | [], best => best
  | none :: rest, best => get_car_urls_go expected_urls rest best
  | some p :: rest, best =>
    let result_urls := attempt_result p
    let best' := if best.length < result_urls.length then result_urls else best
    if expected_urls ≤ result_urls.length then result_urls
    else get_car_urls_go expected_urls rest best'

/-- Embedding of `get_car_urls` (script.py lines 89-172): `attempts` has one
entry per loop iteration, so its length is the method's `max_retries`. -/
def get_car_urls (attempts : List (Option Page)) (expected_urls : Nat) : List String :=
  get_car_urls_go expected_urls attempts []

/-- One grouped "mcd" parameter entry: a JSON dict whose sub-fields may be
absent, defaulted by `params.get(..., '')` (script.py lines 180-183). -/
structure McdParam where
  realValue : Option String
  id : Option String
  value : Option String
  label : Option String
deriving DecidableEq

/-- One mcd group: a JSON dict whose `params` list may be absent
(`group.get('params', [])`, script.py line 178). -/
structure McdGroup where
  params : Option (List McdParam)
deriving DecidableEq

/-- Embedding of `parse_mcdparams` (script.py lines 174-185). -/
def parse_mcdparams (car_mcdparams : List McdGroup) : List RawAttribute :=
  car_mcdparams.flatMap (fun group =>
    (group.params.getD []).map (fun params =>
      ⟨params.id.getD "", params.value.getD "", params.realValue.getD "",
        params.label.getD ""⟩))

/-- The ad's `attributes` object: either collection may be absent
(script.py lines 224-225). -/
structure AdAttributes where
  categoryParams : Option (List RawAttribute)
  mcdParams : Option (List McdGroup)
deriving DecidableEq

/-- One entry of the by-id map; its `attributes` key may be absent. -/
structure Ad where
  attributes : Option AdAttributes
deriving DecidableEq

/-- The `adDetails` object; its `byID` key may be absent. -/
structure AdDetails where
  byID : Option (List (String × Ad))
deriving DecidableEq

/-- The `initialState` object; its `adDetails` key may be absent. -/
structure InitialState where
  adDetails : Option AdDetails
deriving DecidableEq

/-- The `props` object; its `initialState` key may be absent. -/
structure Props where
  initialState : Option InitialState
deriving DecidableEq

/-- A parsed `__NEXT_DATA__` payload; its `props` key may be absent. -/
structure Payload where
  props : Option Props
deriving DecidableEq

/-- Python `byID.get(car_ads_no, {})` seen as association-list lookup
(script.py line 221). -/
def lookupAd (m : List (String × Ad)) (k : String) : Option Ad :=
  (m.find? (fun q => q.1 == k)).map (fun q => q.2)

/-- Python `re.search(r'-(\d+)\.htm', url).group(1)` (script.py line 211):
the leftmost occurrence of `-` followed by a nonempty maximal digit run
followed by `.htm`; `none` when the regex does not match (the resulting
`AttributeError` is caught at line 233). -/
def extract_ads_id : List Char → Option String
  | [] => none
  | c :: rest =>
    let ds := rest.takeWhile Char.isDigit
    if c == Char.ofNat 45 && !ds.isEmpty && leadsWith ".htm".data (rest.drop ds.length) then
      some ⟨ds⟩
    else
      extract_ads_id rest

/-- Outcome of the fetch-and-locate-script phase of `get_car_info`
(script.py lines 202-210): the fetch may raise, the page may carry no
suitable script tag, `json.loads` may raise, or a payload is parsed. -/
inductive FetchOutcome where
  | fetchError : FetchOutcome
  | noScriptTag : FetchOutcome
  | parseError : FetchOutcome
  | payload : Payload → FetchOutcome
deriving DecidableEq

/-- Embedding of `get_car_info` (script.py lines 199-235). -/
def get_car_info (url : String) (outcome : FetchOutcome) : Option (List RawAttribute) :=
  match outcome with
  | FetchOutcome.fetchError => none
  | FetchOutcome.noScriptTag => none
  | FetchOutcome.parseError => none
  | FetchOutcome.payload data =>
    match extract_ads_id url.data with
    | none => none
    | some car_ads_no =>
      let dict_id : List RawAttribute := [⟨"ads_id", car_ads_no, "", "id ads"⟩]
      let ads_id := (lookupAd ((((data.props.getD ⟨none⟩).initialState.getD
        ⟨none⟩).adDetails.getD ⟨none⟩).byID.getD []) car_ads_no).getD ⟨none⟩
      let car_attrs := (ads_id.attributes.getD ⟨none, none⟩).categoryParams.getD []
      let car_mcdparams := (ads_id.attributes.getD ⟨none, none⟩).mcdParams.getD []
      some (car_attrs ++ dict_id ++ parse_mcdparams car_mcdparams)

/-- Stage-2 collection loop of `scrape_cars` (script.py lines 260-269): each
input is one listing URL together with its fetch outcome; `car_data` keeps the
results accepted by the Python truthiness test `if result:` (`None` and the
empty list are falsy). -/
def collect_car_data (inputs : List (String × FetchOutcome)) : List (List RawAttribute) :=
  (inputs.map (fun q => get_car_info q.1 q.2)).foldl
    (fun car_data r =>
      match r with
      | some l => if l.isEmpty then car_data else car_data ++ [l]
      | none => car_data) []

/-- Embedding of `_make_request` (script.py lines 69-87): `oracle i` is the
outcome of fetch attempt `i` (`Except.ok` a response body, `Except.error` a
raised `RequestException` message); the recursion mirrors the
retry-by-recursion on `retry_count`. -/
def make_request (oracle : Nat → Except String String) (max_retries retry_count : Nat) :
    Except String String :=
  match oracle retry_count with
  | Except.ok r => Except.ok r
  | Except.error e =>
    if h : retry_count < max_retries then
      make_request oracle max_retries (retry_count + 1)
    else
      Except.error e
termination_by max_retries - retry_count
decreasing_by omega

/-- Embedding of `get_page_urls` (script.py lines 187-197). -/
def get_page_urls (state brand : String) (start «end» : Int) : List String :=
  let base_url := "https://www.mudah.my"
  let st := if state = "" then "malaysia" else state.toLower
  let url :=
    if brand.toLower = "none" ∨ brand = "" then
      base_url ++ "/" ++ st ++ "/cars-for-sale?o="
    else
      base_url ++ "/" ++ st ++ "/cars-for-sale/" ++ brand ++ "?o="
  (pyRange start («end» + 1)).map (fun page => url ++ toString page)

end MudahScraper

namespace MudahScraper

theorem find?_dictSet_self (d : List (String × String)) (k v : String) :
    (dictSet d k v).find? (fun p => p.1 == k) = some (k, v) := by
  induction d with
  | nil => simp [dictSet]
  | cons q rest ih =>
    obtain ⟨a, b⟩ := q
    by_cases hq : a = k
    · rw [dictSet, if_pos hq, List.find?_cons_of_pos _ (by simp)]
    · rw [dictSet, if_neg hq, List.find?_cons_of_neg _ (by simp [hq]), ih]

theorem dictGet_dictSet_self (d : List (String × String)) (k v : String) :
    dictGet (dictSet d k v) k = some v := by
  rw [dictGet, find?_dictSet_self]
  rfl

theorem find?_dictSet_ne (d : List (String × String)) (k₁ k₂ v : String)
    (h : k₁ ≠ k₂) :
    (dictSet d k₁ v).find? (fun p => p.1 == k₂) = d.find? (fun p => p.1 == k₂) := by
  induction d with
  | nil => simp [dictSet, h]
  | cons q rest ih =>
    obtain ⟨a, b⟩ := q
    by_cases ha : a = k₁
    · subst ha
      rw [dictSet, if_pos rfl, List.find?_cons_of_neg _ (by simp [h]),
        List.find?_cons_of_neg _ (by simp [h])]
    · rw [dictSet, if_neg ha]
      by_cases hb : a = k₂
      · rw [List.find?_cons_of_pos _ (by simp [hb]), List.find?_cons_of_pos _ (by simp [hb])]
      · rw [List.find?_cons_of_neg _ (by simp [hb]), List.find?_cons_of_neg _ (by simp [hb]), ih]

theorem dictGet_dictSet_ne (d : List (String × String)) (k₁ k₂ v : String)
    (h : k₁ ≠ k₂) : dictGet (dictSet d k₁ v) k₂ = dictGet d k₂ := by
  rw [dictGet, dictGet, find?_dictSet_ne d k₁ k₂ v h]

theorem mem_dictSet (d : List (String × String)) (k v : String) (p : String × String)
    (h : p ∈ dictSet d k v) : p = (k, v) ∨ p ∈ d := by
  induction d with
  | nil => simpa [dictSet] using h
  | cons q rest ih =>
    obtain ⟨a, b⟩ := q
    by_cases hq : a = k
    · rw [dictSet, if_pos hq] at h
      rcases List.mem_cons.mp h with h | h
      · exact Or.inl h
      · exact Or.inr (List.mem_cons_of_mem _ h)
    · rw [dictSet, if_neg hq] at h
      rcases List.mem_cons.mp h with h | h
      · exact Or.inr (by simp [h])
      · rcases ih h with h₁ | h₁
        · exact Or.inl h₁
        · exact Or.inr (List.mem_cons_of_mem _ h₁)

theorem dictGet_foldl_normStep (attrs : List RawAttribute) (i : String) (hi : i ∈ keys) :
    ∀ d, dictGet (attrs.foldl normStep d) i =
      match attrs.reverse.find? (fun x => x.id == i) with
      | some a => some a.value
      | none => dictGet d i := by
  induction attrs with
  | nil => intro d; simp
  | cons a t ih =>
    intro d
    rw [List.foldl_cons, ih (normStep d a), List.reverse_cons, List.find?_append]
    cases hfind : t.reverse.find? (fun x => x.id == i) with
    | some b => simp
    | none =>
      by_cases ha : a.id = i
      · subst ha
        have hfa : List.find? (fun x => x.id == a.id) [a] = some a :=
          List.find?_cons_of_pos _ (by simp)
        simp only [Option.none_or, hfa, normStep, if_pos hi, dictGet_dictSet_self]
      · have hfa : List.find? (fun x => x.id == i) [a] = none := by
          rw [List.find?_cons_of_neg _ (by simp [ha]), List.find?_nil]
        simp only [Option.none_or, hfa]
        rw [normStep]
        by_cases hk : a.id ∈ keys
        · rw [if_pos hk, dictGet_dictSet_ne d a.id i a.value ha]
        · rw [if_neg hk]

theorem mem_foldl_normStep (attrs : List RawAttribute) :
    ∀ d, (∀ q ∈ d, q.1 ∈ keys) → ∀ q ∈ attrs.foldl normStep d, q.1 ∈ keys := by
  induction attrs with
  | nil => intro d hd q hq; exact hd q hq
  | cons a t ih =>
    intro d hd q hq
    rw [List.foldl_cons] at hq
    refine ih (normStep d a) ?_ q hq
    intro r hr
    rw [normStep] at hr
    by_cases hk : a.id ∈ keys
    · rw [if_pos hk] at hr
      rcases mem_dictSet d a.id a.value r hr with h₁ | h₁
      · rw [h₁]; exact hk
      · exact hd r h₁
    · rw [if_neg hk] at hr
      exact hd r hr

/-- C2: for every attribute sequence and every id in the known-field schema,
if some attribute in the sequence carries that id, the normalized record maps
the id to the value of the last such attribute (last-write-wins). -/
theorem normalize_last_write_wins (attrs : List RawAttribute) (i : String) (a : RawAttribute)
    (hi : i ∈ keys) (hlast : attrs.reverse.find? (fun x => x.id == i) = some a) :
    dictGet (normalize attrs) i = some a.value := by
  rw [normalize, dictGet_foldl_normStep attrs i hi [], hlast]

theorem normalize_last_write_wins_witness :
    dictGet (normalize [⟨"price", "1000", "", "p"⟩, ⟨"zzz", "x", "", "z"⟩,
      ⟨"price", "2000", "", "p"⟩]) "price" = some "2000" :=
  normalize_last_write_wins
    [⟨"price", "1000", "", "p"⟩, ⟨"zzz", "x", "", "z"⟩, ⟨"price", "2000", "", "p"⟩]
    "price" ⟨"price", "2000", "", "p"⟩ (by decide) (by decide)

/-- C3: the normalized record never contains a key outside the known-field
schema: attributes with unknown ids are dropped, so every key of the output
record is a member of `keys`. -/
theorem normalize_keys_subset (attrs : List RawAttribute) (p : String × String)
    (hp : p ∈ normalize attrs) : p.1 ∈ keys := by
  rw [normalize] at hp
  exact mem_foldl_normStep attrs [] (by simp) p hp

theorem normalize_keys_subset_witness :
    (("make", "Toyota") : String × String).1 ∈ keys :=
  normalize_keys_subset [⟨"make", "Toyota", "", "m"⟩, ⟨"unknown_id", "v", "", "u"⟩]
    ("make", "Toyota") (by decide)

/-- C10: `get_page_urls` is total and returns exactly `max 0 (end - start + 1)`
URLs; in particular when `start > end` it returns the empty list. -/
theorem get_page_urls_count (state brand : String) (start «end» : Int) :
    ((get_page_urls state brand start «end»).length : Int) = max 0 («end» - start + 1) ∧
    («end» < start → get_page_urls state brand start «end» = []) := by
  have hlen : (get_page_urls state brand start «end»).length = («end» + 1 - start).toNat := by
    rw [get_page_urls, pyRange, List.length_map, List.length_map, List.length_range]
  constructor
  · rw [hlen, Int.toNat_eq_max]
    have h₁ : «end» + 1 - start = «end» - start + 1 := by ring
    rw [h₁, max_comm]
  · intro h
    have h₂ : («end» + 1 - start).toNat = 0 := Int.toNat_of_nonpos (by omega)
    rw [get_page_urls, pyRange, h₂]
    rfl

theorem get_car_urls_go_nil (e : Nat) (b : List String) : get_car_urls_go e [] b = b := rfl

theorem get_car_urls_go_none (e : Nat) (rest : List (Option Page)) (b : List String) :
    get_car_urls_go e (none :: rest) b = get_car_urls_go e rest b := rfl

theorem get_car_urls_go_some (e : Nat) (p : Page) (rest : List (Option Page)) (b : List String) :
    get_car_urls_go e (some p :: rest) b =
      if e ≤ (attempt_result p).length then attempt_result p
      else get_car_urls_go e rest
        (if b.length < (attempt_result p).length then attempt_result p else b) := rfl

theorem get_car_urls_go_all_fail (e n : Nat) (b : List String) :
    get_car_urls_go e (List.replicate n none) b = b := by
  induction n with
  | zero => rfl
  | succ m ih => rw [List.replicate_succ, get_car_urls_go_none, ih]

/-- C7: when every attempt's fetch raises, each iteration is caught and counts
as a failed attempt, so after all attempts `get_car_urls` returns the empty
list; being a total function of its inputs it propagates no exception. -/
theorem get_car_urls_all_fetches_fail (n expected_urls : Nat) :
    get_car_urls (List.replicate n none) expected_urls = [] :=
  get_car_urls_go_all_fail expected_urls n []

theorem get_car_urls_go_early (expected : Nat) (p : Page)
    (hp : expected ≤ (attempt_result p).length) :
    ∀ (pre rest : List (Option Page)) (best : List String),
      (∀ q ∈ pre.filterMap id, (attempt_result q).length < expected) →
      get_car_urls_go expected (pre ++ some p :: rest) best = attempt_result p := by
  intro pre
  induction pre with
  | nil =>
    intro rest best _
    rw [List.nil_append, get_car_urls_go_some, if_pos hp]
  | cons o pre ih =>
    intro rest best hlt
    cases o with
    | none =>
      rw [List.cons_append, get_car_urls_go_none]
      exact ih rest best (fun q hq => hlt q (by simpa using hq))
    | some q =>
      have hq : (attempt_result q).length < expected := hlt q (by simp)
      rw [List.cons_append, get_car_urls_go_some, if_neg (by omega)]
      exact ih rest _ (fun r hr => hlt r (by simp [hr]))

theorem get_car_urls_go_best (expected : Nat) :
    ∀ (attempts : List (Option Page)) (best : List String),
      (∀ q ∈ attempts.filterMap id, (attempt_result q).length < expected) →
      (get_car_urls_go expected attempts best = best ∨
        ∃ q, q ∈ attempts.filterMap id ∧
          get_car_urls_go expected attempts best = attempt_result q) ∧
      best.length ≤ (get_car_urls_go expected attempts best).length ∧
      ∀ q ∈ attempts.filterMap id,
        (attempt_result q).length ≤ (get_car_urls_go expected attempts best).length := by
  intro attempts
  induction attempts with
  | nil =>
    intro best _
    exact ⟨Or.inl rfl, le_refl _, by simp⟩
  | cons o rest ih =>
    intro best h
    cases o with
    | none =>
      obtain ⟨h₁, h₂, h₃⟩ := ih best (fun q hq => h q (by simpa using hq))
      rw [get_car_urls_go_none]
      refine ⟨?_, h₂, ?_⟩
      · rcases h₁ with h₁ | ⟨q, hq, hq'⟩
        · exact Or.inl h₁
        · exact Or.inr ⟨q, by simpa using hq, hq'⟩
      · intro q hq
        exact h₃ q (by simpa using hq)
    | some p =>
      have hp : (attempt_result p).length < expected := h p (by simp)
      rw [get_car_urls_go_some, if_neg (by omega)]
      set bb := if best.length < (attempt_result p).length then attempt_result p else best with hbb
      have hbest : best.length ≤ bb.length ∧ (attempt_result p).length ≤ bb.length ∧
          (bb = best ∨ bb = attempt_result p) := by
        rw [hbb]
        by_cases hc : best.length < (attempt_result p).length
        · rw [if_pos hc]
          exact ⟨Nat.le_of_lt hc, le_refl _, Or.inr rfl⟩
        · rw [if_neg hc]
          exact ⟨le_refl _, by omega, Or.inl rfl⟩
      obtain ⟨h₁, h₂, h₃⟩ := ih bb (fun q hq => h q (by simp [hq]))
      refine ⟨?_, le_trans hbest.1 h₂, ?_⟩
      · rcases h₁ with h₁ | ⟨q, hq, hq'⟩
        · rcases hbest.2.2 with hb | hb
          · exact Or.inl (h₁.trans hb)
          · exact Or.inr ⟨p, by simp, h₁.trans hb⟩
        · exact Or.inr ⟨q, by simp [hq], hq'⟩
      · intro q hq
        rcases (by simpa using hq : q = p ∨ q ∈ rest.filterMap id) with hq' | hq'
        · rw [hq']
          exact le_trans hbest.2.1 h₂
        · exact h₃ q hq'

/-- C1: `get_car_urls` returns the current attempt's set as soon as an
attempt's combined-strategy set reaches `expected_urls`; otherwise, after all
attempts it returns a largest set observed across the successful attempts,
even when a later attempt yielded fewer URLs than an earlier one. -/
theorem get_car_urls_policy (attempts : List (Option Page)) (expected : Nat) :
    (∀ pre p rest, attempts = pre ++ some p :: rest →
      (∀ q ∈ pre.filterMap id, (attempt_result q).length < expected) →
      expected ≤ (attempt_result p).length →
      get_car_urls attempts expected = attempt_result p) ∧
    ((∀ q ∈ attempts.filterMap id, (attempt_result q).length < expected) →
      (get_car_urls attempts expected = [] ∨
        ∃ q, q ∈ attempts.filterMap id ∧ get_car_urls attempts expected = attempt_result q) ∧
      ∀ q ∈ attempts.filterMap id,
        (attempt_result q).length ≤ (get_car_urls attempts expected).length) := by
  constructor
  · intro pre p rest hsplit hlt hp
    rw [get_car_urls, hsplit]
    exact get_car_urls_go_early expected p hp pre rest [] hlt
  · intro h
    obtain ⟨h₁, _, h₃⟩ := get_car_urls_go_best expected attempts [] h
    exact ⟨h₁, h₃⟩

theorem get_car_urls_policy_witness :
    get_car_urls [some ⟨["a"], [], []⟩, none, some ⟨["b", "c"], [], []⟩] 2 =
      attempt_result ⟨["b", "c"], [], []⟩ ∧
    (attempt_result ⟨["x", "y"], [], []⟩).length ≤
      (get_car_urls [some ⟨["x", "y"], [], []⟩, some ⟨["z"], [], []⟩] 5).length :=
  ⟨(get_car_urls_policy [some ⟨["a"], [], []⟩, none, some ⟨["b", "c"], [], []⟩] 2).1
      [some ⟨["a"], [], []⟩, none] ⟨["b", "c"], [], []⟩ [] rfl (by decide) (by decide),
   ((get_car_urls_policy [some ⟨["x", "y"], [], []⟩, some ⟨["z"], [], []⟩] 5).2
      (by decide)).2 ⟨["x", "y"], [], []⟩ (by decide)⟩

theorem htmSub_of_leadsWith (l : List Char) (h : leadsWith ".htm".data l = true) :
    htmSub l = true := by
  cases l with
  | nil => simp [leadsWith] at h
  | cons c rest => rw [htmSub, h, Bool.true_or]

theorem htmSub_cons (c : Char) (rest : List Char) (h : htmSub rest = true) :
    htmSub (c :: rest) = true := by
  rw [htmSub, h, Bool.or_true]

theorem htmSub_drop (n : Nat) : ∀ l, htmSub (List.drop n l) = true → htmSub l = true := by
  induction n with
  | zero => intro l h; simpa using h
  | succ m ih =>
    intro l h
    cases l with
    | nil => simpa using h
    | cons c rest => exact htmSub_cons c rest (ih rest (by simpa using h))

theorem htmSub_append (a : List Char) : ∀ l, htmSub l = true → htmSub (a ++ l) = true := by
  induction a with
  | nil => intro l h; simpa using h
  | cons c cs ih => intro l h; exact htmSub_cons c (cs ++ l) (ih l h)

theorem searchAnyHtml_htmSub : ∀ l, searchAnyHtml l = true → htmSub l = true := by
  intro l
  induction l with
  | nil => intro h; simp [searchAnyHtml] at h
  | cons c rest ih =>
    intro h
    rw [searchAnyHtml] at h
    rcases Bool.or_eq_true_iff.mp h with h₁ | h₁
    · exact htmSub_cons c rest (htmSub_of_leadsWith rest (Bool.and_eq_true_iff.mp h₁).2)
    · exact htmSub_cons c rest (ih h₁)

theorem afterCars_htmSub : ∀ l, afterCars l = true → htmSub l = true := by
  intro l
  induction l with
  | nil => intro h; simp [afterCars] at h
  | cons c rest ih =>
    intro h
    rw [afterCars] at h
    rcases Bool.or_eq_true_iff.mp (Bool.and_eq_true_iff.mp h).2 with h₁ | h₁
    · exact htmSub_cons c rest (htmSub_of_leadsWith rest h₁)
    · exact htmSub_cons c rest (ih h₁)

theorem searchCarsHtml_htmSub : ∀ l, searchCarsHtml l = true → htmSub l = true := by
  intro l
  induction l with
  | nil => intro h; simp [searchCarsHtml] at h
  | cons c rest ih =>
    intro h
    rw [searchCarsHtml] at h
    rcases Bool.or_eq_true_iff.mp h with h₁ | h₁
    · have h₂ := afterCars_htmSub _ (Bool.and_eq_true_iff.mp h₁).2
      exact htmSub_cons c rest (htmSub_drop 5 rest h₂)
    · exact htmSub_cons c rest (ih h₁)

theorem startsHttp_absolutize (s : String) : startsHttp (absolutize s) = true := by
  rw [absolutize]
  by_cases hs : startsHttp s
  · rw [if_pos hs]; exact hs
  · rw [if_neg hs]; rfl

theorem htmSub_absolutize (s : String) (h : htmSub s.data = true) :
    htmSub (absolutize s).data = true := by
  rw [absolutize]
  by_cases hs : startsHttp s
  · rw [if_pos hs]; exact h
  · rw [if_neg hs]
    exact htmSub_append "https://www.mudah.my".data s.data h

theorem element_find_link_matches (e : Element) (s : String)
    (h : element_find_link e = some s) :
    searchCarsHtml s.data = true ∨ searchAnyHtml s.data = true := by
  rw [element_find_link] at h
  cases hc : e.anchors.find? (fun x => searchCarsHtml x.data) with
  | some t =>
    rw [hc] at h
    have ht : some t = some s := h
    obtain rfl : t = s := Option.some_inj.mp ht
    have h₂ := List.find?_some hc
    exact Or.inl h₂
  | none =>
    rw [hc] at h
    simp only [Option.none_or] at h
    have h₂ := List.find?_some h
    exact Or.inr h₂

theorem mem_attempt_result (p : Page) (u : String) (h : u ∈ attempt_result p) :
    u ∈ p.ldjsonUrls ∨
      (∃ s, (∃ e, e ∈ p.elements ∧ element_find_link e = some s) ∧ u = absolutize s) ∨
      u ∈ p.nextDataUrls := by
  rw [attempt_result, List.mem_dedup] at h
  rcases List.mem_append.mp h with h₁ | h₁
  · rcases List.mem_append.mp h₁ with h₂ | h₂
    · exact Or.inl h₂
    · obtain ⟨s, hs, hu⟩ := List.mem_map.mp h₂
      exact Or.inr (Or.inl ⟨s, List.mem_filterMap.mp hs, hu.symm⟩)
  · exact Or.inr (Or.inr h₁)

theorem get_car_urls_go_mem (expected : Nat) :
    ∀ (attempts : List (Option Page)) (best : List String) (u : String),
      u ∈ get_car_urls_go expected attempts best →
      u ∈ best ∨ ∃ p, some p ∈ attempts ∧ u ∈ attempt_result p := by
  intro attempts
  induction attempts with
  | nil => intro best u hu; exact Or.inl hu
  | cons o rest ih =>
    intro best u hu
    cases o with
    | none =>
      rw [get_car_urls_go_none] at hu
      rcases ih best u hu with h | ⟨p, hp, hm⟩
      · exact Or.inl h
      · exact Or.inr ⟨p, List.mem_cons_of_mem _ hp, hm⟩
    | some p =>
      rw [get_car_urls_go_some] at hu
      by_cases hif : expected ≤ (attempt_result p).length
      · rw [if_pos hif] at hu
        exact Or.inr ⟨p, List.mem_cons_self _ _, hu⟩
      · rw [if_neg hif] at hu
        rcases ih _ u hu with h | ⟨q, hq, hm⟩
        · by_cases hc : best.length < (attempt_result p).length
          · rw [if_pos hc] at h
            exact Or.inr ⟨p, List.mem_cons_self _ _, h⟩
          · rw [if_neg hc] at h
            exact Or.inl h
        · exact Or.inr ⟨q, List.mem_cons_of_mem _ hq, hm⟩

/-- C6 amended: every URL returned by `get_car_urls` either was passed through
verbatim from the LD+JSON or `__NEXT_DATA__` strategies (which impose no shape
on it), or was produced by the DOM strategy and then starts with `http` and
contains the substring `.htm` (not necessarily at the end). -/
theorem get_car_urls_mem_shape (attempts : List (Option Page)) (expected : Nat)
    (u : String) (hu : u ∈ get_car_urls attempts expected) :
    ∃ p, some p ∈ attempts ∧
      (u ∈ p.ldjsonUrls ∨ u ∈ p.nextDataUrls ∨
        (startsHttp u = true ∧ htmSub u.data = true)) := by
  rw [get_car_urls] at hu
  rcases get_car_urls_go_mem expected attempts [] u hu with h | ⟨p, hp, hm⟩
  · simp at h
  · refine ⟨p, hp, ?_⟩
    rcases mem_attempt_result p u hm with h₁ | ⟨s, ⟨e, _, hfind⟩, hu'⟩ | h₁
    · exact Or.inl h₁
    · subst hu'
      refine Or.inr (Or.inr ⟨startsHttp_absolutize s, htmSub_absolutize s ?_⟩)
      rcases element_find_link_matches e s hfind with hm₁ | hm₁
      · exact searchCarsHtml_htmSub s.data hm₁
      · exact searchAnyHtml_htmSub s.data hm₁
    · exact Or.inr (Or.inl h₁)

theorem get_car_urls_mem_shape_witness :
    ∃ p, some p ∈ [some (⟨["u1"], [], []⟩ : Page)] ∧
      ("u1" ∈ p.ldjsonUrls ∨ "u1" ∈ p.nextDataUrls ∨
        (startsHttp "u1" = true ∧ htmSub "u1".data = true)) :=
  get_car_urls_mem_shape [some ⟨["u1"], [], []⟩] 1 "u1" (by decide)

/-- C6 counterexample: the LD+JSON strategy adds item URLs verbatim
(script.py line 119), so `get_car_urls` can return a string that neither is
absolute nor ends with `.htm`/`.html`. -/
theorem get_car_urls_url_shape_counterexample :
    "foo" ∈ get_car_urls [some ⟨["foo"], [], []⟩] 1 ∧
    startsHttp "foo" = false ∧ endsWithHtml "foo" = false := by
  decide

theorem get_page_urls_count_witness :
    ((get_page_urls "Selangor" "toyota" 5 2).length : Int) = max 0 (2 - 5 + 1) ∧
    get_page_urls "Selangor" "toyota" 5 2 = [] :=
  ⟨(get_page_urls_count "Selangor" "toyota" 5 2).1,
   (get_page_urls_count "Selangor" "toyota" 5 2).2 (by decide)⟩

/-- C4: when the fetch and JSON parse succeed and the ad identifier is
extracted from the URL, `get_car_info` returns exactly: the category
parameters, then one synthesized attribute with id `ads_id`, value the
extracted digit string, label `id ads` and empty realValue, then the
flattened mcd parameters with absent sub-fields defaulted to the empty
string. -/
theorem get_car_info_concat (url : String) (data : Payload) (n : String)
    (h : extract_ads_id url.data = some n) :
    get_car_info url (FetchOutcome.payload data) =
      some (
        let ads_id := (lookupAd ((((data.props.getD ⟨none⟩).initialState.getD
          ⟨none⟩).adDetails.getD ⟨none⟩).byID.getD []) n).getD ⟨none⟩
        ((ads_id.attributes.getD ⟨none, none⟩).categoryParams.getD []) ++
          [⟨"ads_id", n, "", "id ads"⟩] ++
          ((ads_id.attributes.getD ⟨none, none⟩).mcdParams.getD []).flatMap (fun group =>
            (group.params.getD []).map (fun params =>
              (⟨params.id.getD "", params.value.getD "", params.realValue.getD "",
                params.label.getD ""⟩ : RawAttribute)))) := by
  simp only [get_car_info, h, parse_mcdparams]

theorem get_car_info_concat_witness :
    get_car_info "x-12.htm" (FetchOutcome.payload ⟨some ⟨some ⟨some ⟨some
        [("12", ⟨some ⟨some [⟨"make", "Perodua", "", "Make"⟩],
          some [⟨some [⟨some "rv", some "cc", some "1500", some "CC"⟩]⟩]⟩⟩)]⟩⟩⟩⟩) =
      some [⟨"make", "Perodua", "", "Make"⟩, ⟨"ads_id", "12", "", "id ads"⟩,
        ⟨"cc", "1500", "rv", "CC"⟩] :=
  get_car_info_concat "x-12.htm" ⟨some ⟨some ⟨some ⟨some
    [("12", ⟨some ⟨some [⟨"make", "Perodua", "", "Make"⟩],
      some [⟨some [⟨some "rv", some "cc", some "1500", some "CC"⟩]⟩]⟩⟩)]⟩⟩⟩⟩ "12" (by decide)

/-- C5: with a parsed payload and a parsed ad identifier that is absent from
the by-id map, every navigation step defaults to an empty structure and
`get_car_info` returns a non-null result holding exactly the synthesized
`ads_id` attribute. -/
theorem get_car_info_absent_id (url : String) (data : Payload) (n : String)
    (h : extract_ads_id url.data = some n)
    (habs : lookupAd ((((data.props.getD ⟨none⟩).initialState.getD ⟨none⟩).adDetails.getD
      ⟨none⟩).byID.getD []) n = none) :
    get_car_info url (FetchOutcome.payload data) = some [⟨"ads_id", n, "", "id ads"⟩] := by
  simp only [get_car_info, h, habs, parse_mcdparams, Option.getD_none]
  rfl

theorem get_car_info_absent_id_witness :
    get_car_info "car-99.htm" (FetchOutcome.payload ⟨some ⟨some ⟨some ⟨some
        [("12", ⟨none⟩)]⟩⟩⟩⟩) = some [⟨"ads_id", "99", "", "id ads"⟩] :=
  get_car_info_absent_id "car-99.htm" ⟨some ⟨some ⟨some ⟨some [("12", ⟨none⟩)]⟩⟩⟩⟩ "99"
    (by decide) (by decide)

theorem get_car_info_ne_nil (url : String) (o : FetchOutcome) (l : List RawAttribute)
    (h : get_car_info url o = some l) : l ≠ [] := by
  cases o with
  | fetchError => simp [get_car_info] at h
  | noScriptTag => simp [get_car_info] at h
  | parseError => simp [get_car_info] at h
  | payload data =>
    rw [get_car_info] at h
    cases he : extract_ads_id url.data with
    | none => rw [he] at h; simp at h
    | some n =>
      rw [he] at h
      simp only [Option.some_inj] at h
      intro hnil
      subst hnil
      simp at h

theorem collect_foldl_eq (rs : List (Option (List RawAttribute)))
    (hne : ∀ l, some l ∈ rs → l ≠ []) :
    ∀ acc, rs.foldl
      (fun car_data r =>
        match r with
        | some l => if l.isEmpty then car_data else car_data ++ [l]
        | none => car_data) acc = acc ++ rs.filterMap id := by
  induction rs with
  | nil => intro acc; simp
  | cons r rest ih =>
    intro acc
    have hrest : ∀ l, some l ∈ rest → l ≠ [] := fun l hl => hne l (List.mem_cons_of_mem _ hl)
    cases r with
    | none => simpa using ih hrest acc
    | some l =>
      have hl : l ≠ [] := hne l (List.mem_cons_self _ _)
      have hemp : l.isEmpty = false := by simpa [List.isEmpty_iff] using hl
      simp only [List.foldl_cons, hemp, if_neg Bool.false_ne_true, List.filterMap_cons]
      rw [ih hrest (acc ++ [l])]
      simp

/-- C8: in stage 2 of `scrape_cars`, a listing URL's result is collected iff
`get_car_info` returned non-`None` for it: `get_car_info` never returns an
empty list, so the truthiness filter `if result:` keeps exactly the
non-`None` results, in order. -/
theorem collect_car_data_eq_some_results (inputs : List (String × FetchOutcome)) :
    collect_car_data inputs =
      (inputs.map (fun q => get_car_info q.1 q.2)).filterMap id := by
  rw [collect_car_data]
  rw [collect_foldl_eq _ ?hne []]
  · simp
  case hne =>
    intro l hl
    rcases List.mem_map.mp hl with ⟨q, _, hq⟩
    exact get_car_info_ne_nil q.1 q.2 l hq

theorem make_request_all_fail_aux (oracle : Nat → Except String String)
    (errs : Nat → String) (mr : Nat)
    (hfail : ∀ i, i ≤ mr → oracle i = Except.error (errs i)) :
    ∀ n rc, mr - rc ≤ n → rc ≤ mr → make_request oracle mr rc = Except.error (errs mr) := by
  intro n
  induction n with
  | zero =>
    intro rc h₁ h₂
    have hrc : rc = mr := by omega
    subst hrc
    rw [make_request, hfail rc (le_refl rc)]
    simp
  | succ m ih =>
    intro rc h₁ h₂
    by_cases hc : rc < mr
    · rw [make_request, hfail rc h₂]
      simp only [hc, dif_pos]
      exact ih (rc + 1) (by omega) (by omega)
    · have hrc : rc = mr := by omega
      subst hrc
      rw [make_request, hfail rc (le_refl rc)]
      simp

theorem make_request_oracle_agree_aux (o₁ o₂ : Nat → Except String String) (mr : Nat)
    (hagree : ∀ i, i ≤ mr → o₁ i = o₂ i) :
    ∀ n rc, mr - rc ≤ n → rc ≤ mr → make_request o₁ mr rc = make_request o₂ mr rc := by
  intro n
  induction n with
  | zero =>
    intro rc h₁ h₂
    have hrc : rc = mr := by omega
    subst hrc
    rw [make_request]
    conv_rhs => rw [make_request]
    rw [hagree rc (le_refl rc)]
    cases o₂ rc with
    | ok r => simp
    | error e => simp
  | succ m ih =>
    intro rc h₁ h₂
    rw [make_request]
    conv_rhs => rw [make_request]
    rw [hagree rc h₂]
    cases o₂ rc with
    | ok r => simp
    | error e =>
      by_cases hc : rc < mr
      · simp only [dif_pos hc]
        exact ih (rc + 1) (by omega) (by omega)
      · simp [hc]

/-- C9: `_make_request` terminates: its embedding is a total function whose
result depends only on the outcomes of attempts `0..max_retries` (so at most
`max_retries + 1` fetch attempts are performed), and when every one of those
attempts fails it returns the last attempt's error rather than retrying
further. -/
theorem make_request_bounded (max_retries : Nat) (o₁ o₂ : Nat → Except String String)
    (errs : Nat → String) :
    ((∀ i, i ≤ max_retries → o₁ i = Except.error (errs i)) →
      make_request o₁ max_retries 0 = Except.error (errs max_retries)) ∧
    ((∀ i, i ≤ max_retries → o₁ i = o₂ i) →
      make_request o₁ max_retries 0 = make_request o₂ max_retries 0) := by
  constructor
  · intro h
    exact make_request_all_fail_aux o₁ errs max_retries h max_retries 0 (by omega) (by omega)
  · intro h
    exact make_request_oracle_agree_aux o₁ o₂ max_retries h max_retries 0 (by omega) (by omega)

theorem make_request_bounded_witness :
    make_request (fun i => Except.error (toString i)) 3 0 = Except.error (toString 3) :=
  (make_request_bounded 3 (fun i => Except.error (toString i))
    (fun i => Except.error (toString i)) (fun i => toString i)).1 (fun _ _ => rfl)

end MudahScraper
